import Mathlib

/-!
Verification of the storm change-point notebook and the number-theory
notebook of this repository.  The notebook code is shallowly embedded:
the repository's own `rate` function is modelled over lists, the pandas
aggregation line is modelled as a grouping function on a list of rows,
the PyMC model declaration is modelled as a list of node descriptors,
and the SymPy number-theory calls are modelled as executable functions.

Definitions come first, then the lemmas and the claim theorems.
-/

/-- Model of `np.empty(n)`: an array of `n` uninitialized cells, an
uninitialized cell being `none`. -/
def npEmpty (α : Type) (n : Nat) : List (Option α) :=
  List.replicate n none

/-- Model of the slice assignment `out[:s] = v`: the first `s` cells of the
array become `some v`; if `s` exceeds the length, the slice clips, as in
Python. -/
def assignUpTo (v : α) : Nat → List (Option α) → List (Option α)
  | _, [] => []
  | 0, xs => xs
  | s + 1, _ :: xs => some v :: assignUpTo v s xs

/-- Model of the slice assignment `out[s:] = v`: the cells at index `s`
and beyond become `some v`; if `s` exceeds the length, the slice clips,
as in Python. -/
def assignFrom (v : α) : Nat → List (Option α) → List (Option α)
  | 0, xs => xs.map (fun _ => some v)
  | _ + 1, [] => []
  | s + 1, x :: xs => x :: assignFrom v s xs

/-- The repository's deterministic function
`def rate(s=switchpoint, e=early_mean, l=late_mean)`:
`out = np.empty(len(arr)); out[:s] = e; out[s:] = l; return out`,
with `n = len(arr)`. -/
def rate (n s : Nat) (e l : α) : List (Option α) :=
  assignFrom l s (assignUpTo e s (npEmpty α n))

/-- Modelled from the spec: the support of the PyMC `DiscreteUniform`
prior of `switchpoint`, the integers from `lower = 0` to
`upper = len(arr)` with the upper bound inclusive (the sampling library
itself is external to the repository). -/
def switchSupport (n : Nat) : List Nat :=
  List.range (n + 1)

/-- Descriptor of one node of the PyMC model built by the notebook. -/
inductive PNode (α : Type) where
  | discreteUniform (name : String) (lower upper : Nat) : PNode α
  | exponential (name : String) (beta : Int) : PNode α
  | deterministic (name : String) (value : List (Option α)) : PNode α
  | poissonObserved (name : String) (mu : List (Option α)) (value : List Nat) : PNode α
  deriving DecidableEq

/-- `switchpoint = pymc.DiscreteUniform('switchpoint', lower=0, upper=len(arr))`. -/
def switchpoint (α : Type) (arr : List Nat) : PNode α :=
  PNode.discreteUniform "switchpoint" 0 arr.length

/-- `early_mean = pymc.Exponential('early_mean', beta=1)`. -/
def early_mean (α : Type) : PNode α :=
  PNode.exponential "early_mean" 1

/-- `late_mean = pymc.Exponential('late_mean', beta=1)`. -/
def late_mean (α : Type) : PNode α :=
  PNode.exponential "late_mean" 1

/-- The `@pymc.deterministic` node `rate`, whose value at parameters
`(s, e, l)` is the piecewise array computed by `rate`. -/
def rateNode (arr : List Nat) (s : Nat) (e l : α) : PNode α :=
  PNode.deterministic "rate" (rate arr.length s e l)

/-- `storms = pymc.Poisson('storms', mu=rate, value=arr, observed=True)`:
the observed Poisson node, with `mu` the value of the `rate` node. -/
def storms (arr : List Nat) (s : Nat) (e l : α) : PNode α :=
  PNode.poissonObserved "storms" (rate arr.length s e l) arr

/-- `model = pymc.Model([switchpoint, early_mean, late_mean, rate, storms])`. -/
def model (arr : List Nat) (s : Nat) (e l : α) : List (PNode α) :=
  [switchpoint α arr, early_mean α, late_mean α, rateNode arr s e l, storms arr s e l]

/-- A node is a (non-observed) random variable of the model. -/
def PNode.isRandomVariable : PNode α → Bool
  | PNode.discreteUniform _ _ _ => true
  | PNode.exponential _ _ => true
  | _ => false

/-- A node is a deterministic node of the model. -/
def PNode.isDeterministicNode : PNode α → Bool
  | PNode.deterministic _ _ => true
  | _ => false

/-- A node is an observed node of the model. -/
def PNode.isObserved : PNode α → Bool
  | PNode.poissonObserved _ _ _ => true
  | _ => false

/-- Modelled from the spec: the (inclusive) integer support of a
`DiscreteUniform` node; empty for the other node kinds. -/
def PNode.duSupport : PNode α → List Nat
  | PNode.discreteUniform _ lo hi => (List.range (hi + 1)).filter (fun k => lo ≤ k)
  | _ => []

/-- The `mu` argument of an observed Poisson node; `[]` for other nodes. -/
def PNode.muOf : PNode α → List (Option α)
  | PNode.poissonObserved _ mu _ => mu
  | _ => []

/-- The observed `value` argument of an observed Poisson node. -/
def PNode.obsValue : PNode α → List Nat
  | PNode.poissonObserved _ _ v => v
  | _ => []

/-- One call `mcmc.sample(iter=..., burn=..., thin=...)`. -/
structure SampleCall where
  iter : Nat
  burn : Nat
  thin : Nat
  deriving DecidableEq

/-- The notebook invokes the sampler exactly once:
`mcmc.sample(iter=10000, burn=1000, thin=10)`. -/
def mcmcSampleCalls : List SampleCall :=
  [⟨10000, 1000, 10⟩]

/-- Modelled from the spec: the number of retained samples of a PyMC
trace for a fixed iteration/burn-in/thinning schedule,
`(iter - burn) / thin` (the sampler itself is external to the
repository). -/
def traceLength (c : SampleCall) : Nat :=
  (c.iter - c.burn) / c.thin

/-- One row of the storm table, restricted to the three columns the
notebook accesses. -/
structure Row where
  basin : String
  season : Int
  serial : String
  deriving DecidableEq

/-- The fixed relative path passed to `pd.read_csv`. -/
def csvPath : String :=
  "data/Allstorms.ibtracs_wmo.v03r05.csv"

/-- The notebook reads exactly one CSV file. -/
def csvReadCalls : List String :=
  [csvPath]

/-- The columns the notebook accesses on the storm table. -/
def columnsAccessed : List String :=
  ["Basin", "Season", "Serial_Num"]

/-- `df[df['Basin'] == ' NA']`: the rows whose `Basin` field is `' NA'`. -/
def filterNA (df : List Row) : List Row :=
  df.filter (fun r => r.basin == " NA")

/-- Modelled from the pandas semantics of `groupby('Season')`: the
distinct `Season` values of the rows, in increasing order. -/
def seasons (rows : List Row) : List Int :=
  List.insertionSort (· ≤ ·) (rows.map Row.season).dedup

/-- `['Serial_Num'].nunique()` for one group: the number of distinct
`Serial_Num` values among the rows of season `y`. -/
def nuniqueSerial (rows : List Row) (y : Int) : Nat :=
  ((rows.filter (fun r => r.season == y)).map Row.serial).dedup.length

/-- The aggregation line of the notebook:
`cnt = df[df['Basin'] == ' NA'].groupby('Season')['Serial_Num'].nunique()`,
as the list of (season, count) pairs indexed by increasing season. -/
def cnt (df : List Row) : List (Int × Nat) :=
  (seasons (filterNA df)).map (fun y => (y, nuniqueSerial (filterNA df) y))

/-- `pd.read_csv`: delegated entirely to the file system / parsing
oracle `fs`; the notebook adds nothing around it. -/
def read_csv (fs : String → Except String (List Row)) (path : String) :
    Except String (List Row) :=
  fs path

/-- The loading pipeline of the notebook: read the CSV at the fixed
path, then aggregate.  No exception is caught anywhere. -/
def loadStormCounts (fs : String → Except String (List Row)) :
    Except String (List (Int × Nat)) :=
  (read_csv fs csvPath).map cnt

/-- Trial division kernel: checks that no `k` with `d ≤ k` and
`k * k ≤ n` divides `n`, using `fuel` steps. -/
def noDiv (n : Nat) : Nat → Nat → Bool
  | _, 0 => true
  | d, fuel + 1 =>
      if n < d * d then true
      else (decide (¬ n % d = 0)) && noDiv n (d + 1) fuel

/-- Modelled from the spec: `sympy.ntheory.isprime`, primality of a
natural number (the library is external to the repository). -/
def isprime (n : Nat) : Bool :=
  decide (2 ≤ n) && noDiv n 2 n

/-- Modelled from the spec: `sympy.ntheory.primepi`, the prime-counting
function, the number of primes `p ≤ x` (glossary: count of primes ≤ x). -/
def primepi (x : Nat) : Nat :=
  ((List.range (x + 1)).filter isprime).length

/-- Combine a partial solution `(x1, m1)` with one congruence
`x ≡ r2 (mod m2)`: search the smallest `x < lcm m1 m2` compatible with
both, as a model of one step of the Chinese-Remainder combination. -/
def crt2 : Nat × Nat → Nat × Nat → Option (Nat × Nat)
  | (x1, m1), (r2, m2) =>
      match (List.range (Nat.lcm m1 m2)).find?
          (fun x => x % m1 == x1 % m1 && x % m2 == r2 % m2) with
      | some x => some (x, Nat.lcm m1 m2)
      | none => none

/-- Modelled from the spec: `sympy.ntheory.modular.solve_congruence`,
solving simultaneous congruences `x ≡ r (mod m)` and returning the
smallest solution together with the combined modulus (the library is
external to the repository). -/
def solve_congruence (l : List (Nat × Nat)) : Option (Nat × Nat) :=
  l.foldl (fun acc rm => acc.bind (fun xm => crt2 xm rm)) (some (0, 1))

/-- Specification of the partition behaviour of `rate` at boundary `s`:
length `n`, entries below `s` equal to `e`, entries from `s` on equal
to `l`. -/
def RatePartitionSpec (n s : Nat) (e l : α) : Prop :=
  (rate n s e l).length = n ∧
  (∀ i : Nat, i < s → (rate n s e l).get? i = some (some e)) ∧
  (∀ i : Nat, s ≤ i → i < n → (rate n s e l).get? i = some (some l))

/-- Specification of full initialization of the `np.empty` output of
`rate`, with the two degenerate boundaries. -/
def RateInitializedSpec (n s : Nat) (e l : α) : Prop :=
  (rate n s e l).length = n ∧
  (∀ i : Nat, i < n → ∃ w : α, (rate n s e l).get? i = some (some w)) ∧
  (s = n → rate n s e l = List.replicate n (some e)) ∧
  (s = 0 → rate n s e l = List.replicate n (some l))

/-- Specification of the observed `storms` node: observed, value the
data array, `mu` the rate array entrywise, hence early mean below the
boundary and late mean from it on. -/
def StormsPoissonSpec (arr : List Nat) (s : Nat) (e l : α) : Prop :=
  PNode.isObserved (storms arr s e l) = true ∧
  PNode.obsValue (storms arr s e l) = arr ∧
  PNode.muOf (storms arr s e l) = rate arr.length s e l ∧
  (∀ i : Nat, i < s → (PNode.muOf (storms arr s e l)).get? i = some (some e)) ∧
  (∀ i : Nat, s ≤ i → i < arr.length →
    (PNode.muOf (storms arr s e l)).get? i = some (some l)) ∧
  storms arr s e l ∈ model arr s e l ∧
  mcmcSampleCalls.length = 1

/-- Specification of the aggregation: every season occurring among the
`' NA'` rows is paired in `cnt` with the number of distinct serial
numbers of that season. -/
def CntSpec (df : List Row) : Prop :=
  ∀ y : Int, y ∈ (filterNA df).map Row.season →
    (y, (((filterNA df).filter (fun r => r.season == y)).map Row.serial).toFinset.card)
      ∈ cnt df

/-- Specification of the index of `cnt`: strictly increasing seasons,
first entry the minimum season, last entry the maximum season, and the
counts positionally aligned with the seasons. -/
def CntIndexSpec (df : List Row) : Prop :=
  List.Sorted (· < ·) (seasons (filterNA df)) ∧
  seasons (filterNA df) ≠ [] ∧
  (∃ y0, (seasons (filterNA df)).head? = some y0 ∧
    y0 ∈ (filterNA df).map Row.season ∧
    ∀ r ∈ filterNA df, y0 ≤ r.season) ∧
  (∃ y1, (seasons (filterNA df)).getLast? = some y1 ∧
    y1 ∈ (filterNA df).map Row.season ∧
    (∀ r ∈ filterNA df, r.season ≤ y1) ∧
    ∀ y0, (seasons (filterNA df)).head? = some y0 → y0 ≤ y1) ∧
  (cnt df).length = (seasons (filterNA df)).length ∧
  (∀ i : Nat, (cnt df).get? i =
    ((seasons (filterNA df)).get? i).map
      (fun y => (y, nuniqueSerial (filterNA df) y)))

theorem length_assignUpTo (v : α) :
    ∀ (s : Nat) (xs : List (Option α)), (assignUpTo v s xs).length = xs.length
  | s, [] => by cases s <;> rfl
  | 0, _ :: _ => rfl
  | s + 1, _ :: xs => by
      simp [assignUpTo, length_assignUpTo v s xs]

theorem length_assignFrom (v : α) :
    ∀ (s : Nat) (xs : List (Option α)), (assignFrom v s xs).length = xs.length
  | 0, xs => by simp [assignFrom]
  | _ + 1, [] => rfl
  | s + 1, _ :: xs => by
      simp [assignFrom, length_assignFrom v s xs]

theorem length_rate (n s : Nat) (e l : α) : (rate n s e l).length = n := by
  simp [rate, npEmpty, length_assignFrom, length_assignUpTo]

theorem get?_assignUpTo_lt (v : α) :
    ∀ (s : Nat) (xs : List (Option α)) (i : Nat),
      i < s → i < xs.length → (assignUpTo v s xs).get? i = some (some v)
  | 0, _, _, h, _ => absurd h (Nat.not_lt_zero _)
  | _ + 1, [], _, _, h => absurd h (Nat.not_lt_zero _)
  | _ + 1, _ :: _, 0, _, _ => rfl
  | s + 1, _ :: xs, i + 1, h, hl =>
      get?_assignUpTo_lt v s xs i (Nat.lt_of_succ_lt_succ h)
        (Nat.lt_of_succ_lt_succ hl)

theorem get?_assignUpTo_ge (v : α) :
    ∀ (s : Nat) (xs : List (Option α)) (i : Nat),
      s ≤ i → (assignUpTo v s xs).get? i = xs.get? i
  | s, [], _ => fun _ => by cases s <;> rfl
  | 0, _ :: _, _ => fun _ => rfl
  | _ + 1, _ :: _, 0 => fun h => absurd h (Nat.not_succ_le_zero _)
  | s + 1, _ :: xs, i + 1 => fun h =>
      get?_assignUpTo_ge v s xs i (Nat.le_of_succ_le_succ h)

theorem get?_map_const (v : α) :
    ∀ (xs : List (Option α)) (i : Nat), i < xs.length →
      (xs.map (fun _ => some v)).get? i = some (some v)
  | [], _, h => absurd h (Nat.not_lt_zero _)
  | _ :: _, 0, _ => rfl
  | _ :: xs, i + 1, h => get?_map_const v xs i (Nat.lt_of_succ_lt_succ h)

theorem get?_assignFrom_lt (v : α) :
    ∀ (s : Nat) (xs : List (Option α)) (i : Nat),
      i < s → (assignFrom v s xs).get? i = xs.get? i
  | 0, _, _, h => absurd h (Nat.not_lt_zero _)
  | _ + 1, [], _, _ => rfl
  | _ + 1, _ :: _, 0, _ => rfl
  | s + 1, _ :: xs, i + 1, h =>
      get?_assignFrom_lt v s xs i (Nat.lt_of_succ_lt_succ h)

theorem get?_assignFrom_ge (v : α) :
    ∀ (s : Nat) (xs : List (Option α)) (i : Nat),
      s ≤ i → i < xs.length → (assignFrom v s xs).get? i = some (some v)
  | 0, xs, i => fun _ hl => get?_map_const v xs i hl
  | _ + 1, [], i => fun _ hl => absurd hl (Nat.not_lt_zero _)
  | _ + 1, _ :: _, 0 => fun h _ => absurd h (Nat.not_succ_le_zero _)
  | s + 1, _ :: xs, i + 1 => fun h hl =>
      get?_assignFrom_ge v s xs i (Nat.le_of_succ_le_succ h)
        (Nat.lt_of_succ_lt_succ hl)

theorem rate_get?_early (n s : Nat) (e l : α) (i : Nat)
    (hi : i < s) (hn : i < n) : (rate n s e l).get? i = some (some e) := by
  unfold rate
  rw [get?_assignFrom_lt l s _ i hi]
  exact get?_assignUpTo_lt e s _ i hi (by simpa [npEmpty])

theorem rate_get?_late (n s : Nat) (e l : α) (i : Nat)
    (hi : s ≤ i) (hn : i < n) : (rate n s e l).get? i = some (some l) := by
  unfold rate
  exact get?_assignFrom_ge l s _ i hi
    (by simp [length_assignUpTo, npEmpty, hn])

theorem assignUpTo_zero (v : α) (xs : List (Option α)) : assignUpTo v 0 xs = xs := by
  cases xs <;> rfl

theorem assignUpTo_replicate_full (v : α) :
    ∀ n : Nat, assignUpTo v n (List.replicate n none) = List.replicate n (some v)
  | 0 => rfl
  | n + 1 => by
      simp [List.replicate_succ, assignUpTo, assignUpTo_replicate_full v n]

theorem assignFrom_of_length_le (v : α) :
    ∀ (s : Nat) (xs : List (Option α)), xs.length ≤ s → assignFrom v s xs = xs
  | 0, xs, h => by
      have hx : xs = [] := List.eq_nil_of_length_eq_zero (Nat.le_zero.mp h)
      subst hx; rfl
  | _ + 1, [], _ => rfl
  | s + 1, x :: xs, h => by
      simp [assignFrom, assignFrom_of_length_le v s xs (Nat.le_of_succ_le_succ h)]

theorem rate_boundary_top (n : Nat) (e l : α) :
    rate n n e l = List.replicate n (some e) := by
  unfold rate npEmpty
  rw [assignUpTo_replicate_full e n]
  exact assignFrom_of_length_le l n _ (by simp)

theorem rate_boundary_bot (n : Nat) (e l : α) :
    rate n 0 e l = List.replicate n (some l) := by
  unfold rate
  rw [assignUpTo_zero]
  show (npEmpty α n).map (fun _ => some l) = List.replicate n (some l)
  simp [npEmpty]

/-- C1: for every integer switch point `s` with `0 ≤ s ≤ n` and every pair
of values `e` (early mean) and `l` (late mean), the deterministic function
`rate` returns an array of length `n` partitioned into two contiguous
segments at the boundary `s`: every entry with index `i < s` equals `e`
and every entry with index `i ≥ s` equals `l`. -/
theorem rate_partitions_time_series {α : Type} (n s : Nat) (e l : α)
    (hs : s ≤ n) : RatePartitionSpec n s e l :=
  ⟨length_rate n s e l,
   fun i hi => rate_get?_early n s e l i hi (Nat.lt_of_lt_of_le hi hs),
   fun i hsi hin => rate_get?_late n s e l i hsi hin⟩

theorem rate_partitions_time_series_witness :
    (2 : Nat) ≤ 4 ∧ RatePartitionSpec 4 2 (7 : Int) (9 : Int) :=
  ⟨by decide, rate_partitions_time_series 4 2 7 9 (by decide)⟩

/-- C9: for every `s` in the full inclusive support `{0, ..., n}` of the
switch-point prior, the two slice assignments of `rate` stay in bounds and
together initialize every entry of the `np.empty` output, so `rate` never
returns an uninitialized cell; at `s = n` the whole array equals the early
mean and at `s = 0` it equals the late mean. -/
theorem rate_initializes_every_entry {α : Type} (n s : Nat) (e l : α)
    (hs : s ∈ switchSupport n) : RateInitializedSpec n s e l := by
  refine ⟨length_rate n s e l, ?_, ?_, ?_⟩
  · intro i hin
    by_cases hi : i < s
    · exact ⟨e, rate_get?_early n s e l i hi hin⟩
    · exact ⟨l, rate_get?_late n s e l i (Nat.le_of_not_lt hi) hin⟩
  · intro h; rw [h]; exact rate_boundary_top n e l
  · intro h; rw [h]; exact rate_boundary_bot n e l

theorem rate_initializes_every_entry_witness :
    3 ∈ switchSupport 3 ∧ RateInitializedSpec 3 3 (5 : Int) (11 : Int) :=
  ⟨by decide, rate_initializes_every_entry 3 3 5 11 (by decide)⟩

/-- C2: the probabilistic model declares exactly three random variables
— a discrete uniform switch point whose support is the integer range
`0` to `len(arr)` inclusive and two exponential rate parameters each
with `beta = 1` — plus one deterministic node (`rate`), and the model
passed to the sampler contains exactly these nodes together with the
observed `storms` node. -/
theorem model_declares_exactly_these_nodes {α : Type} (arr : List Nat)
    (s : Nat) (e l : α) :
    model arr s e l =
      [switchpoint α arr, early_mean α, late_mean α,
       rateNode arr s e l, storms arr s e l] ∧
    (model arr s e l).filter PNode.isRandomVariable =
      [PNode.discreteUniform "switchpoint" 0 arr.length,
       PNode.exponential "early_mean" 1,
       PNode.exponential "late_mean" 1] ∧
    ((model arr s e l).filter PNode.isRandomVariable).length = 3 ∧
    (model arr s e l).filter PNode.isDeterministicNode =
      [PNode.deterministic "rate" (rate arr.length s e l)] ∧
    (model arr s e l).filter PNode.isObserved =
      [PNode.poissonObserved "storms" (rate arr.length s e l) arr] ∧
    (∀ k : Nat, k ∈ PNode.duSupport (switchpoint α arr) ↔ k ≤ arr.length) := by
  refine ⟨rfl, rfl, rfl, rfl, rfl, ?_⟩
  intro k
  simp [PNode.duSupport, switchpoint, List.mem_filter, List.mem_range,
    Nat.lt_succ_iff]

theorem model_declares_exactly_these_nodes_witness :
    model [2, 3] 1 (5 : Int) 7 =
      [switchpoint Int [2, 3], early_mean Int, late_mean Int,
       rateNode [2, 3] 1 5 7, storms [2, 3] 1 5 7] :=
  (model_declares_exactly_these_nodes [2, 3] 1 5 7).1

/-- C3: the observed variable `storms` is a Poisson node whose `mu` is
the rate array entrywise, so each segment has its own mean: the early
mean below the boundary, the late mean from it on; the node carries the
observed per-year counts and the model is handed to the generic MCMC
sampler (invoked once). -/
theorem storms_observed_poisson_rate {α : Type} (arr : List Nat) (s : Nat)
    (e l : α) (hs : s ≤ arr.length) : StormsPoissonSpec arr s e l := by
  refine ⟨rfl, rfl, rfl, ?_, ?_, ?_, rfl⟩
  · intro i hi
    show (rate arr.length s e l).get? i = some (some e)
    exact rate_get?_early arr.length s e l i hi (Nat.lt_of_lt_of_le hi hs)
  · intro i h1 h2
    show (rate arr.length s e l).get? i = some (some l)
    exact rate_get?_late arr.length s e l i h1 h2
  · simp [model]

theorem storms_observed_poisson_rate_witness :
    (1 : Nat) ≤ ([4, 6] : List Nat).length ∧
    StormsPoissonSpec [4, 6] 1 (3 : Int) (8 : Int) :=
  ⟨by decide, storms_observed_poisson_rate [4, 6] 1 3 8 (by decide)⟩

/-- C4: the MCMC sampler is invoked exactly once with the fixed schedule
`iter = 10000`, `burn = 1000`, `thin = 10`, and the retained trace of
each parameter contains `(10000 - 1000) / 10 = 900` samples. -/
theorem mcmc_schedule_and_trace_length :
    mcmcSampleCalls = [⟨10000, 1000, 10⟩] ∧
    mcmcSampleCalls.length = 1 ∧
    traceLength ⟨10000, 1000, 10⟩ = (10000 - 1000) / 10 ∧
    traceLength ⟨10000, 1000, 10⟩ = 900 :=
  ⟨rfl, rfl, rfl, by decide⟩

theorem mem_seasons {rows : List Row} {y : Int} :
    y ∈ seasons rows ↔ y ∈ rows.map Row.season := by
  simp [seasons, List.mem_insertionSort, List.mem_dedup]

theorem nodup_seasons (rows : List Row) : (seasons rows).Nodup :=
  (List.perm_insertionSort _ _).nodup_iff.mpr (List.nodup_dedup _)

theorem sorted_le_seasons (rows : List Row) :
    List.Sorted (· ≤ ·) (seasons rows) :=
  List.sorted_insertionSort _ _

theorem sorted_lt_seasons (rows : List Row) :
    List.Sorted (· < ·) (seasons rows) :=
  (sorted_le_seasons rows).lt_of_le (nodup_seasons rows)

theorem pair_mem_cnt {df : List Row} {y : Int}
    (hy : y ∈ (filterNA df).map Row.season) :
    (y, nuniqueSerial (filterNA df) y) ∈ cnt df := by
  have hmem : y ∈ seasons (filterNA df) := mem_seasons.mpr hy
  exact List.mem_map_of_mem (fun z => (z, nuniqueSerial (filterNA df) z)) hmem

/-- C5: the data loader reads exactly one CSV file, at the fixed relative
path `data/Allstorms.ibtracs_wmo.v03r05.csv`, accesses only the columns
`Basin`, `Season` and `Serial_Num`, and for every season present among
the rows with basin `' NA'` the aggregated count equals the number of
distinct serial numbers among those rows. -/
theorem loader_counts_distinct_serials (df : List Row) :
    CntSpec df ∧
    ((cnt df).map Prod.fst).Nodup ∧
    csvReadCalls = ["data/Allstorms.ibtracs_wmo.v03r05.csv"] ∧
    csvReadCalls.length = 1 ∧
    columnsAccessed = ["Basin", "Season", "Serial_Num"] := by
  refine ⟨?_, ?_, rfl, rfl, rfl⟩
  · intro y hy
    have hcard :
        (((filterNA df).filter (fun r => r.season == y)).map Row.serial).toFinset.card
          = nuniqueSerial (filterNA df) y := by
      simp [nuniqueSerial, List.card_toFinset]
    rw [hcard]
    exact pair_mem_cnt hy
  · have hkeys : (cnt df).map Prod.fst = seasons (filterNA df) := by
      simp [cnt, List.map_map, Function.comp_def]
    rw [hkeys]
    exact nodup_seasons _

theorem loader_counts_distinct_serials_witness :
    CntSpec [⟨" NA", 1950, "a"⟩, ⟨" NA", 1950, "a2"⟩,
             ⟨" SP", 1950, "zz"⟩, ⟨" NA", 1951, "b"⟩] ∧
    ((cnt [⟨" NA", 1950, "a"⟩, ⟨" NA", 1950, "a2"⟩,
           ⟨" SP", 1950, "zz"⟩, ⟨" NA", 1951, "b"⟩]).map Prod.fst).Nodup ∧
    csvReadCalls = ["data/Allstorms.ibtracs_wmo.v03r05.csv"] ∧
    csvReadCalls.length = 1 ∧
    columnsAccessed = ["Basin", "Season", "Serial_Num"] :=
  loader_counts_distinct_serials
    [⟨" NA", 1950, "a"⟩, ⟨" NA", 1950, "a2"⟩,
     ⟨" SP", 1950, "zz"⟩, ⟨" NA", 1951, "b"⟩]

/-- C6: a failure of the underlying library read propagates unchanged
through the loading pipeline: whatever error `pd.read_csv` raises is the
error of the whole computation, with no catching, translation, retry or
recovery anywhere in the repository. -/
theorem loader_propagates_read_errors
    (fs : String → Except String (List Row)) (msg : String)
    (h : fs csvPath = Except.error msg) :
    loadStormCounts fs = Except.error msg := by
  simp [loadStormCounts, read_csv, h, Except.map]

theorem loader_propagates_read_errors_witness :
    (fun _ : String =>
      (Except.error "FileNotFoundError" : Except String (List Row))) csvPath
        = Except.error "FileNotFoundError" ∧
    loadStormCounts
      (fun _ => Except.error "FileNotFoundError") = Except.error "FileNotFoundError" :=
  ⟨rfl, loader_propagates_read_errors _ "FileNotFoundError" rfl⟩

theorem head_le_of_sorted_le {l : List Int}
    (hl : List.Sorted (· ≤ ·) l) {a : Int} (ha : l.head? = some a) :
    ∀ z ∈ l, a ≤ z := by
  cases l with
  | nil => cases ha
  | cons b t =>
    intro z hz
    have hb : b = a := by simpa using ha
    rcases List.mem_cons.mp hz with h | h
    · rw [← hb, h]
    · rw [← hb]
      exact List.rel_of_sorted_cons hl z h

theorem le_getLast_of_sorted_le :
    ∀ (l : List Int), List.Sorted (· ≤ ·) l →
      ∀ a : Int, l.getLast? = some a → ∀ z ∈ l, z ≤ a := by
  intro l
  induction l with
  | nil => intro _ a ha; cases ha
  | cons b t ih =>
    intro hl a ha z hz
    cases t with
    | nil =>
      have hb : b = a := by simpa using ha
      have hzb : z = b := by simpa using hz
      rw [hzb, hb]
    | cons c t2 =>
      rw [List.getLast?_cons_cons] at ha
      have hmem : a ∈ c :: t2 := List.mem_of_getLast?_eq_some ha
      rcases List.mem_cons.mp hz with h | h
      · rw [h]
        exact List.rel_of_sorted_cons hl a hmem
      · exact ih hl.of_cons a ha z h

theorem seasons_head_min (rows : List Row) (y0 : Int)
    (h : (seasons rows).head? = some y0) :
    y0 ∈ rows.map Row.season ∧ ∀ r ∈ rows, y0 ≤ r.season := by
  constructor
  · have hmem : y0 ∈ seasons rows := by
      cases hl : seasons rows with
      | nil => rw [hl] at h; cases h
      | cons b t =>
        rw [hl] at h
        have hb : b = y0 := by simpa using h
        rw [← hb]
        exact List.mem_cons_self _ _
    exact mem_seasons.mp hmem
  · intro r hr
    have hmem : r.season ∈ seasons rows :=
      mem_seasons.mpr (List.mem_map_of_mem _ hr)
    exact head_le_of_sorted_le (sorted_le_seasons rows) h _ hmem

theorem seasons_getLast_max (rows : List Row) (y1 : Int)
    (h : (seasons rows).getLast? = some y1) :
    y1 ∈ rows.map Row.season ∧ ∀ r ∈ rows, r.season ≤ y1 := by
  constructor
  · exact mem_seasons.mp (List.mem_of_getLast?_eq_some h)
  · intro r hr
    have hmem : r.season ∈ seasons rows :=
      mem_seasons.mpr (List.mem_map_of_mem _ hr)
    exact le_getLast_of_sorted_le _ (sorted_le_seasons rows) _ h _ hmem

/-- C10: whenever the filtered storm table is non-empty, the aggregated
series `cnt` has a strictly increasing index of seasons, its first index
entry is the minimum season and its last one the maximum season (so
`y0 ≤ y1`), and each count is positionally aligned with its season. -/
theorem cnt_index_sorted_and_aligned (df : List Row)
    (hne : filterNA df ≠ []) : CntIndexSpec df := by
  obtain ⟨r0, hr0⟩ := List.exists_mem_of_ne_nil _ hne
  have hr0s : r0.season ∈ seasons (filterNA df) :=
    mem_seasons.mpr (List.mem_map_of_mem _ hr0)
  have hne2 : seasons (filterNA df) ≠ [] := List.ne_nil_of_mem hr0s
  refine ⟨sorted_lt_seasons _, hne2, ?_, ?_, by simp [cnt], ?_⟩
  · obtain ⟨y0, hy0⟩ : ∃ y0, (seasons (filterNA df)).head? = some y0 := by
      cases hl : seasons (filterNA df) with
      | nil => exact absurd hl hne2
      | cons b t => exact ⟨b, rfl⟩
    have hmin := seasons_head_min (filterNA df) y0 hy0
    exact ⟨y0, hy0, hmin.1, hmin.2⟩
  · obtain ⟨y1, hy1⟩ : ∃ y1, (seasons (filterNA df)).getLast? = some y1 := by
      cases hgl : (seasons (filterNA df)).getLast? with
      | none => exact absurd (List.getLast?_eq_none_iff.mp hgl) hne2
      | some y1 => exact ⟨y1, rfl⟩
    have hmax := seasons_getLast_max (filterNA df) y1 hy1
    refine ⟨y1, hy1, hmax.1, hmax.2, ?_⟩
    intro y0 hy0
    have hmin := seasons_head_min (filterNA df) y0 hy0
    obtain ⟨r, hr, hrs⟩ := List.mem_map.mp hmax.1
    have := hmin.2 r hr
    rw [hrs] at this
    exact this
  · intro i
    simp [cnt, List.get?_map]

theorem cnt_index_sorted_and_aligned_witness :
    filterNA [⟨" NA", 1951, "b"⟩, ⟨" NA", 1950, "a"⟩, ⟨" EP", 1949, "c"⟩] ≠ [] ∧
    CntIndexSpec [⟨" NA", 1951, "b"⟩, ⟨" NA", 1950, "a"⟩, ⟨" EP", 1949, "c"⟩] :=
  ⟨by decide,
   cnt_index_sorted_and_aligned
     [⟨" NA", 1951, "b"⟩, ⟨" NA", 1950, "a"⟩, ⟨" EP", 1949, "c"⟩] (by decide)⟩

theorem noDiv_sound :
    ∀ (fuel d n : Nat), noDiv n d fuel = true →
      ∀ k, d ≤ k → k < d + fuel → k * k ≤ n → ¬ k ∣ n := by
  intro fuel
  induction fuel with
  | zero =>
    intro d n _ k hdk hlt _
    omega
  | succ fuel ih =>
    intro d n h k hdk hlt hkk
    simp only [noDiv] at h
    by_cases hdd : n < d * d
    · have hle : d * d ≤ k * k := Nat.mul_le_mul hdk hdk
      omega
    · rw [if_neg hdd, Bool.and_eq_true] at h
      rcases Nat.eq_or_lt_of_le hdk with rfl | hdk2
      · intro hdvd
        obtain ⟨c, rfl⟩ := hdvd
        exact of_decide_eq_true h.1 (Nat.mul_mod_right d c)
      · exact ih (d + 1) n h.2 k hdk2 (by omega) hkk

theorem noDiv_complete :
    ∀ (fuel d n : Nat), (∀ k, d ≤ k → k * k ≤ n → ¬ k ∣ n) →
      noDiv n d fuel = true := by
  intro fuel
  induction fuel with
  | zero => intro d n _; rfl
  | succ fuel ih =>
    intro d n h
    simp only [noDiv]
    by_cases hdd : n < d * d
    · rw [if_pos hdd]
    · rw [if_neg hdd, Bool.and_eq_true]
      refine ⟨decide_eq_true ?_, ih (d + 1) n ?_⟩
      · intro h0
        exact h d (Nat.le_refl d) (Nat.le_of_not_lt hdd)
          (Nat.dvd_of_mod_eq_zero h0)
      · intro k hk1 hk2
        exact h k (by omega) hk2

theorem isprime_iff (n : Nat) : isprime n = true ↔ Nat.Prime n := by
  constructor
  · intro h
    have h' : (decide (2 ≤ n) && noDiv n 2 n) = true := h
    rw [Bool.and_eq_true] at h'
    obtain ⟨h2, hnd⟩ := h'
    have h2n : 2 ≤ n := of_decide_eq_true h2
    rw [Nat.prime_def_le_sqrt]
    refine ⟨h2n, ?_⟩
    intro m hm2 hms
    have hmm : m * m ≤ n := Nat.le_sqrt.mp hms
    have h1 : m * 1 ≤ m * m := Nat.mul_le_mul_left m (by omega)
    rw [Nat.mul_one] at h1
    exact noDiv_sound n 2 n hnd m hm2 (by omega) hmm
  · intro hp
    rw [Nat.prime_def_le_sqrt] at hp
    obtain ⟨h2n, hnd⟩ := hp
    show (decide (2 ≤ n) && noDiv n 2 n) = true
    rw [Bool.and_eq_true]
    refine ⟨decide_eq_true h2n, ?_⟩
    apply noDiv_complete n 2 n
    intro k hk2 hkk
    exact hnd k hk2 (Nat.le_sqrt.mpr hkk)

theorem isprime_eq (n : Nat) : isprime n = decide (Nat.Prime n) := by
  by_cases hp : Nat.Prime n
  · rw [(isprime_iff n).mpr hp, decide_eq_true hp]
  · cases hb : isprime n with
    | false => rw [decide_eq_false hp]
    | true => exact absurd ((isprime_iff n).mp hb) hp

theorem primepi_eq (x : Nat) :
    primepi x =
      ((List.range (x + 1)).filter (fun p => decide (Nat.Prime p))).length := by
  unfold primepi
  congr 1
  exact List.filter_congr (fun a _ => isprime_eq a)

/-- C7: the prime-counting query evaluates the prime-counting function of
the glossary: `primepi 2011` is the number of primes `p ≤ 2011`; since
`2011` is itself prime, that count includes `2011`, so it exceeds the
count below `2011` by one. -/
theorem primepi_2011_counts_primes_le :
    primepi 2011 =
      ((List.range 2012).filter (fun p => decide (Nat.Prime p))).length ∧
    Nat.Prime 2011 ∧
    primepi 2011 = primepi 2010 + 1 := by
  refine ⟨primepi_eq 2011, (isprime_iff 2011).mp (by decide), ?_⟩
  have h2011 : isprime 2011 = true := by decide
  unfold primepi
  rw [show (2010 + 1 : Nat) = 2011 from rfl, List.range_succ,
      List.filter_append, List.length_append]
  simp [List.filter_cons, h2011]

/-- C8: the Chinese-Remainder invocation
`solve_congruence((1, 3), (2, 4), (3, 5))` returns `(58, 60)`, solving
`x ≡ 1 (mod 3)`, `x ≡ 2 (mod 4)`, `x ≡ 3 (mod 5)` with modulus
`lcm(3, 4, 5) = 60`, and the solutions are exactly `58` plus the
multiples of `60`. -/
theorem solve_congruence_marbles :
    solve_congruence [(1, 3), (2, 4), (3, 5)] = some (58, 60) ∧
    58 % 3 = 1 ∧ 58 % 4 = 2 ∧ 58 % 5 = 3 ∧
    Nat.lcm 3 (Nat.lcm 4 5) = 60 ∧
    (∀ y : Nat, (y % 3 = 1 ∧ y % 4 = 2 ∧ y % 5 = 3) ↔ y % 60 = 58) ∧
    (∀ y : Nat, y % 60 = 58 ↔ ∃ k, y = 58 + 60 * k) := by
  refine ⟨by decide, by decide, by decide, by decide, by decide, ?_, ?_⟩
  · intro y
    have h3 : y % 60 % 3 = y % 3 := Nat.mod_mod_of_dvd y (by decide)
    have h4 : y % 60 % 4 = y % 4 := Nat.mod_mod_of_dvd y (by decide)
    have h5 : y % 60 % 5 = y % 5 := Nat.mod_mod_of_dvd y (by decide)
    have h60 : y % 60 < 60 := Nat.mod_lt y (by decide)
    have key : ∀ r, r < 60 → ((r % 3 = 1 ∧ r % 4 = 2 ∧ r % 5 = 3) ↔ r = 58) := by
      decide
    constructor
    · intro hc
      exact (key (y % 60) h60).mp
        ⟨h3.trans hc.1, h4.trans hc.2.1, h5.trans hc.2.2⟩
    · intro h58
      refine ⟨?_, ?_, ?_⟩
      · rw [← h3, h58]
      · rw [← h4, h58]
      · rw [← h5, h58]
  · intro y
    constructor
    · intro h
      refine ⟨y / 60, ?_⟩
      have hdm := Nat.div_add_mod y 60
      omega
    · rintro ⟨k, rfl⟩
      simp [Nat.add_mul_mod_self_left]
